import Mathlib

/-!
Shallow embedding of the retry/backoff/timeout helpers of the `got` repository
(package `attempt`, file attempt/doc.go) and of its counting semaphore
(package `semaphore`).

Modelling conventions:
* Go `error` values are modelled by the inductive `Got.Err E`: user-supplied
  errors are `base e`, the two context errors are `canceled` and
  `deadlineExceeded`, and `*RetryExhaustedError{Attempt, Err}` is
  `retryExhausted attempt err`.
* A `context.Context` as seen by `WithRetry` is `Option (Err E)`: `none` is a
  context that is never done, `some e` is a context that is already done and
  whose `ctx.Err()` is `e`.  (`WithRetry` only ever asks whether the context is
  done and, if so, for its error.)
* `time.Duration` is an integer number of nanoseconds (`ℤ`); Go `float64`
  arithmetic on the inputs appearing in this development is exact and is
  modelled by `ℚ`; the Go conversion `time.Duration(f)` truncates toward zero
  and is modelled by `ratTrunc`.
* The operation `fn func(ctx) (T, error)` may answer differently on each
  invocation, so it is modelled as a function from the (1-based) invocation
  number to its result.
* The retry loop of `WithRetry` can run forever (MaximumAttempts = 0); it is
  modelled with a fuel parameter, `none` meaning the fuel ran out.  Results
  carry a third component: the number of times the operation was invoked.
* `WithTimeout` races the operation against the derived context on real time;
  it is modelled with explicit completion times (the operation finishes at
  `opTime`, the parent context ends at the time recorded in `parent`), and an
  oracle `tie` deciding Go's nondeterministic `select` when both channels are
  ready at the same instant.
* The semaphore `type Semaphore chan struct{}` of capacity C is modelled as a
  state machine on the number of buffered tokens (= outstanding acquisitions):
  a channel send is enabled iff the buffer is not full, a receive iff it is not
  empty.
-/

namespace Got

/-- Go errors as used by the attempt package: user errors, the two context
errors, and `RetryExhaustedError` with its `Attempt` and wrapped `Err` fields. -/
inductive Err (E : Type) where
  | base : E → Err E
  | canceled : Err E
  | deadlineExceeded : Err E
  | retryExhausted : ℕ → Err E → Err E
  deriving DecidableEq

/-- Unwrap of the error types: `(*RetryExhaustedError).Unwrap` returns the
wrapped `Err` field; no other error in the package has an Unwrap method. -/
def Err.unwrap {E : Type} : Err E → Option (Err E)
  | .retryExhausted _ e => some e
  | _ => none

/-- RetryStrategy from the source: `MaximumAttempts int` (0 = unlimited),
`ShouldRetry func(error) bool` (nil = never retry), and
`Delayer func(attempt int) time.Duration` (nil = no delay). -/
structure RetryStrategy (E : Type) where
  maximumAttempts : ℤ
  shouldRetry : Option (Err E → Bool)
  delayer : Option (ℤ → ℤ)

/-- The `for` loop of `WithRetry`, entered with the attempt counter at
`attempt` (source: `var attempt int` then `attempt++` at the top of each pass):
increment the counter, invoke the operation, return on success, return the raw
error when ShouldRetry declines, return a RetryExhaustedError when
`MaximumAttempts != 0 && attempt >= MaximumAttempts`, otherwise compute the
delay and re-check the context (the zero-delay fast path and the ticker wait
both continue when the context is not done, and both return `ctx.Err()` when it
is).  The result carries the number of invocations performed; `none` means the
fuel ran out before the loop returned. -/
def withRetryLoop {E T : Type} [Inhabited T] (ctx : Option (Err E))
    (rs : RetryStrategy E) (fn : ℕ → T × Option (Err E)) (sr : Err E → Bool) :
    ℕ → ℕ → Option (T × Option (Err E) × ℕ)
  | _, 0 => none
  | attempt, fuel + 1 =>
    let a := attempt + 1
    match (fn a).2 with
    | none => some ((fn a).1, none, a)
    | some e =>
      if sr e = false then some (default, some e, a)
      else if rs.maximumAttempts ≠ 0 ∧ (a : ℤ) ≥ rs.maximumAttempts then
        some (default, some (.retryExhausted a e), a)
      else
        let delay : ℤ := match rs.delayer with | none => 0 | some d => d (a : ℤ)
        if delay = 0 then
          if ctx.isSome then some (default, ctx, a)
          else withRetryLoop ctx rs fn sr a fuel
        else
          if ctx.isSome then some (default, ctx, a)
          else withRetryLoop ctx rs fn sr a fuel

/-- WithRetry from the source: if `rs.ShouldRetry == nil`, call the operation
once and return its result verbatim; otherwise return `ctx.Err()` without
invoking the operation when the context is already done, and otherwise enter
the retry loop.  The third result component counts invocations of the
operation. -/
def withRetry {E T : Type} [Inhabited T] (ctx : Option (Err E))
    (rs : RetryStrategy E) (fn : ℕ → T × Option (Err E)) (fuel : ℕ) :
    Option (T × Option (Err E) × ℕ) :=
  match rs.shouldRetry with
  | none => some ((fn 1).1, (fn 1).2, 1)
  | some sr =>
    if ctx.isSome then some (default, ctx, 0)
    else withRetryLoop ctx rs fn sr 0 fuel

/-- Truncation of an exact rational toward zero, modelling Go's conversion
`time.Duration(f)` of a float64 `f` to an integer number of nanoseconds.
(`Int.tdiv` truncates toward zero, as Go's float-to-int conversion does.) -/
def ratTrunc (q : ℚ) : ℤ := Int.tdiv q.num (q.den : ℤ)

/-- ExponentialBackoff from the source, with fields InitialDelay, MaxDelay
(durations in nanoseconds) and Coefficient (a float64, modelled exactly). -/
structure ExponentialBackoff where
  initialDelay : ℤ
  maxDelay : ℤ
  coefficient : ℚ

/-- DefaultBackoffCoefficient = 2.0 from the source. -/
def DefaultBackoffCoefficient : ℚ := 2

/-- Delay for ExponentialBackoff from the source: 0 at attempt 0; otherwise a
zero Coefficient is replaced by the default on the method's local copy, then
`dur = Duration(float64(InitialDelay) * Pow(Coefficient, float64(attempt)))`,
capped at MaxDelay when it exceeds it. -/
def ExponentialBackoff.Delay (e : ExponentialBackoff) (attempt : ℤ) : ℤ :=
  if attempt = 0 then 0
  else
    let c : ℚ := if e.coefficient = 0 then DefaultBackoffCoefficient else e.coefficient
    let dur : ℤ := ratTrunc ((e.initialDelay : ℚ) * c ^ attempt)
    if dur > e.maxDelay then e.maxDelay else dur

/-- randomDurationBetween from the source,
`start + time.Duration(r*float64(end-start))`, with the random draw `r` made an
explicit argument. -/
def randomDurationBetween (r : ℚ) (start stop : ℤ) : ℤ :=
  start + ratTrunc (r * ((stop - start : ℤ) : ℚ))

/-- DefaultDecorrelatedScale = 3.0 from the source. -/
def DefaultDecorrelatedScale : ℚ := 3

/-- The construction-time defaulting in DecorrelatedJitter:
`if scale <= 0 { scale = DefaultDecorrelatedScale }`. -/
def decorrelatedScale (scale : ℚ) : ℚ :=
  if scale ≤ 0 then DefaultDecorrelatedScale else scale

/-- One call of the closure returned by DecorrelatedJitter (the closure ignores
its attempt argument): `sleep = randomDurationBetween(rnd, base,
time.Duration(float64(sleep)*scale))`, then the call returns `cap` when the
new `sleep` exceeds it and `sleep` otherwise.  The result is (returned delay,
new stored `sleep` state); `r` is this call's random draw. -/
def decorrelatedJitterStep (base cap : ℤ) (scale : ℚ) (r : ℚ) (sleep : ℤ) :
    ℤ × ℤ :=
  let s := randomDurationBetween r base
    (ratTrunc ((sleep : ℚ) * decorrelatedScale scale))
  (if s > cap then cap else s, s)

/-- Successive calls of a DecorrelatedJitter closure from a given stored
`sleep` state, one random draw per call; returns the list of returned delays. -/
def decorrelatedJitterRun (base cap : ℤ) (scale : ℚ) : ℤ → List ℚ → List ℤ
  | _, [] => []
  | sleep, r :: rest =>
    (decorrelatedJitterStep base cap scale r sleep).1
      :: decorrelatedJitterRun base cap scale
          (decorrelatedJitterStep base cap scale r sleep).2 rest

/-- DecorrelatedJitter from the source: the stored state starts at
`sleep := base`, then each call steps it as above. -/
def decorrelatedJitter (base cap : ℤ) (scale : ℚ) (draws : List ℚ) : List ℤ :=
  decorrelatedJitterRun base cap scale base draws

/-- The semaphore operations a client can perform (Wait is not needed for the
properties below): a blocking Acquire under a live context, the two outcomes
of the non-blocking TryAcquire, and Release. -/
inductive SemOp where
  | acquire
  | tryAcquireTrue
  | tryAcquireFalse
  | release

/-- Channel semantics of one semaphore operation, on the number `o` of buffered
tokens (= outstanding acquisitions) of `Semaphore = make(chan struct{}, C)`:
`Acquire` and a successful `TryAcquire` are a channel send, enabled iff
`o < C`; `TryAcquire`'s default branch fires iff the send is not enabled;
`Release` is a receive, enabled iff `0 < o`.  `none` means the operation is
not enabled in this state (it blocks, or the TryAcquire outcome does not
occur). -/
def semStep (C o : ℕ) : SemOp → Option ℕ
  | .acquire => if o < C then some (o + 1) else none
  | .tryAcquireTrue => if o < C then some (o + 1) else none
  | .tryAcquireFalse => if o < C then none else some o
  | .release => if 0 < o then some (o - 1) else none

/-- States reachable from a fresh semaphore `New(C)` (empty buffer, `o = 0`) by
any sequence of enabled operations. -/
inductive SemReachable (C : ℕ) : ℕ → Prop where
  | init : SemReachable C 0
  | step {o o' : ℕ} (op : SemOp) :
      SemReachable C o → semStep C o op = some o' → SemReachable C o'

/-- The time at which the context derived by `context.WithTimeout(ctx, timeout)`
becomes done: its own deadline `timeout` (times are measured from the call),
or the parent's end time if that comes first.  `parent = some (p, pe)` is a
parent context that ends at time `p` with error `pe`; `none` is a parent that
never ends. -/
def childDoneTime {E : Type} (parent : Option (ℕ × Err E)) (timeout : ℕ) : ℕ :=
  match parent with
  | none => timeout
  | some p => min p.1 timeout

/-- The error reported by the derived context once done: the parent's own error
when the parent ended strictly before the `timeout` deadline, and
DeadlineExceeded otherwise. -/
def childCtxErr {E : Type} (parent : Option (ℕ × Err E)) (timeout : ℕ) : Err E :=
  match parent with
  | none => .deadlineExceeded
  | some p => if p.1 < timeout then p.2 else .deadlineExceeded

/-- WithTimeout from the source, on the timed model: the operation runs in a
goroutine and finishes at `opTime` with result `opRes`, delivering to a
buffered channel; the `select` takes the context branch iff the derived
context is done strictly first (or at the same instant with the `tie` oracle
choosing it), returning the zero value and `ctx.Err()`; otherwise it takes the
result branch, returning the operation's value on success and the zero value
with its error on failure. -/
def withTimeout {E T : Type} [Inhabited T] (parent : Option (ℕ × Err E))
    (timeout : ℕ) (opTime : ℕ) (opRes : T × Option (Err E)) (tie : Bool) :
    T × Option (Err E) :=
  if childDoneTime parent timeout < opTime
      ∨ (childDoneTime parent timeout = opTime ∧ tie = true) then
    (default, some (childCtxErr parent timeout))
  else
    match opRes with
    | (_, some e) => (default, some e)
    | (t, none) => (t, none)

/-- Helper for the exhaustion theorem: from any attempt counter strictly below
the limit `k`, with enough fuel, an always-failing operation under an
always-true predicate drives the loop to the RetryExhaustedError at attempt
`k`. -/
lemma withRetryLoop_exhausts {E T : Type} [Inhabited T] (k : ℕ) (hk : 0 < k)
    (fn : ℕ → T × Option (Err E)) (err : ℕ → Err E)
    (hfail : ∀ i, (fn i).2 = some (err i)) (sr : Err E → Bool)
    (hsr : ∀ i, sr (err i) = true) (d : Option (ℤ → ℤ)) :
    ∀ fuel attempt, attempt < k → k ≤ attempt + fuel →
      withRetryLoop none ⟨(k : ℤ), some sr, d⟩ fn sr attempt fuel
        = some (default, some (.retryExhausted k (err k)), k) := by
  intro fuel
  induction fuel with
  | zero => intro attempt h1 h2; omega
  | succ fuel ih =>
    intro attempt h1 h2
    rw [withRetryLoop]
    simp only [hfail, hsr, Option.isSome_none, Bool.true_eq_false, Bool.false_eq_true,
      if_false]
    by_cases hak : attempt + 1 = k
    · rw [if_pos (by constructor <;> omega)]
      rw [hak]
    · rw [if_neg (by omega)]
      have hrec := ih (attempt + 1) (by omega) (by omega)
      split
      · exact hrec
      · exact hrec

/-- C1: with `MaximumAttempts = k > 0`, an operation that fails on every
invocation, and a retry predicate that returns true on each of those failures,
`WithRetry` under a context that never ends invokes the operation exactly `k`
times (the invocation count is the third result component) and returns a
RetryExhaustedError whose Attempt field is `k` and which unwraps to the last
underlying failure `err k`. -/
theorem withRetry_exhausts_after_k {E T : Type} [Inhabited T] (k fuel : ℕ)
    (hk : 0 < k) (hfuel : k ≤ fuel)
    (fn : ℕ → T × Option (Err E)) (err : ℕ → Err E)
    (hfail : ∀ i, (fn i).2 = some (err i)) (sr : Err E → Bool)
    (hsr : ∀ i, sr (err i) = true) (d : Option (ℤ → ℤ)) :
    withRetry none ⟨(k : ℤ), some sr, d⟩ fn fuel
        = some (default, some (.retryExhausted k (err k)), k)
      ∧ (Err.retryExhausted k (err k)).unwrap = some (err k) := by
  constructor
  · rw [withRetry]
    simp only [Option.isSome_none, Bool.false_eq_true, if_false]
    exact withRetryLoop_exhausts k hk fn err hfail sr hsr d fuel 0 hk (by omega)
  · rfl

/-- Witness for C1 at k = 2: two invocations, exhausted error with Attempt = 2
wrapping the last failure. -/
theorem withRetry_exhausts_after_k_witness :
    withRetry (T := ℕ) none ⟨(2 : ℤ), some (fun _ => true), none⟩
        (fun _ => (5, some (Err.base ()))) 2
        = some (0, some (.retryExhausted 2 (.base ())), 2)
      ∧ (Err.retryExhausted 2 (Err.base ())).unwrap = some (Err.base ()) :=
  withRetry_exhausts_after_k 2 2 (by decide) (by decide) _ (fun _ => Err.base ())
    (fun _ => rfl) _ (fun _ => rfl) none

/-- C2 as stated is false on the code: `WithRetry` tests `rs.ShouldRetry == nil`
before the context check, so with a nil predicate and an already-cancelled
context the operation is still invoked (once) and its result — here a success
with value 7 — is returned instead of the context's cancellation failure with
zero invocations. -/
theorem withRetry_cancelled_ctx_counterexample :
    withRetry (E := Unit) (T := ℕ) (some Err.canceled) ⟨0, none, none⟩
        (fun _ => (7, none)) 5
        = some (7, none, 1)
      ∧ some ((7 : ℕ), (none : Option (Err Unit)), 1)
          ≠ some ((default : ℕ), some Err.canceled, 0) := by
  exact ⟨rfl, by decide⟩

/-- C2 amended: for every retry configuration whose retry predicate is
configured (`ShouldRetry ≠ nil`), if the context is already done before
`WithRetry` starts then `WithRetry` returns the context's error and the
operation is never invoked (invocation count 0). -/
theorem withRetry_cancelled_ctx {E T : Type} [Inhabited T] (e : Err E) (m : ℤ)
    (sr : Err E → Bool) (d : Option (ℤ → ℤ)) (fn : ℕ → T × Option (Err E))
    (fuel : ℕ) :
    withRetry (some e) ⟨m, some sr, d⟩ fn fuel = some (default, some e, 0) := rfl

/-- C4: when no retry predicate is configured (`ShouldRetry = nil`), `WithRetry`
invokes the operation exactly once and returns its (value, error) pair
verbatim — for every context (even an already-done one), every attempt limit
and every delayer, with no attempt accounting beyond the single invocation. -/
theorem withRetry_nil_predicate {E T : Type} [Inhabited T] (ctx : Option (Err E))
    (m : ℤ) (d : Option (ℤ → ℤ)) (fn : ℕ → T × Option (Err E)) (fuel : ℕ) :
    withRetry ctx ⟨m, none, d⟩ fn fuel = some ((fn 1).1, (fn 1).2, 1) := rfl

/-- C5: when the first invocation fails with `e`, the configured predicate
returns false on `e`, and the context is not done, `WithRetry` invokes the
operation exactly once and returns `e` itself, unchanged and unwrapped. -/
theorem withRetry_predicate_declines {E T : Type} [Inhabited T] (m : ℤ)
    (sr : Err E → Bool) (d : Option (ℤ → ℤ)) (fn : ℕ → T × Option (Err E))
    (e : Err E) (hfail : (fn 1).2 = some e) (hsr : sr e = false) (fuel : ℕ) :
    withRetry none ⟨m, some sr, d⟩ fn (fuel + 1) = some (default, some e, 1) := by
  rw [withRetry]
  simp only [Option.isSome_none, Bool.false_eq_true, if_false]
  rw [withRetryLoop]
  simp only [Nat.zero_add, hfail, hsr, if_pos rfl]
  rw [if_pos trivial]

/-- Witness for C5: one invocation, the raw failure returned unchanged. -/
theorem withRetry_predicate_declines_witness :
    withRetry (T := ℕ) none ⟨3, some (fun _ => false), none⟩
        (fun _ => (7, some (Err.base ()))) (4 + 1)
        = some (0, some (.base ()), 1) :=
  withRetry_predicate_declines 3 _ none _ (Err.base ()) rfl rfl 4

/-- Casting an integer into `ℚ` and truncating back is the identity. -/
lemma ratTrunc_intCast (m : ℤ) : ratTrunc (m : ℚ) = m := by
  simp [ratTrunc, Int.tdiv_one]

/-- C6: under the documented preconditions Coefficient > 0 and
InitialDelay < MaxDelay, Delay(0) = 0 and for every attempt n ≥ 1 the delay is
min(MaxDelay, InitialDelay × Coefficient^n) (the product truncated to a whole
number of nanoseconds, as the code's float-to-Duration conversion does); in
particular with InitialDelay = 1s, Coefficient = 2, MaxDelay = 10s the delay of
attempt 2 is 4s and the delay of attempt 4 is capped at 10s. -/
theorem exponentialBackoff_delay_formula (e : ExponentialBackoff)
    (hc : 0 < e.coefficient) (_hlt : e.initialDelay < e.maxDelay) :
    e.Delay 0 = 0
    ∧ (∀ n : ℤ, 1 ≤ n →
        e.Delay n = min e.maxDelay (ratTrunc ((e.initialDelay : ℚ) * e.coefficient ^ n)))
    ∧ (ExponentialBackoff.mk 1000000000 10000000000 2).Delay 2 = 4000000000
    ∧ (ExponentialBackoff.mk 1000000000 10000000000 2).Delay 4 = 10000000000 := by
  refine ⟨rfl, ?_, by norm_num [ExponentialBackoff.Delay, ratTrunc],
    by norm_num [ExponentialBackoff.Delay, ratTrunc]⟩
  intro n hn
  simp only [ExponentialBackoff.Delay]
  rw [if_neg (show ¬ n = 0 by omega), if_neg hc.ne']
  rw [min_def]
  split_ifs <;> omega

/-- Witness for C6 at the spec's example backoff (1s initial, 10s max,
coefficient 2): the delay of attempt 2 is exactly 4s. -/
theorem exponentialBackoff_delay_formula_witness :
    (ExponentialBackoff.mk 1000000000 10000000000 2).Delay 2 = 4000000000 :=
  (exponentialBackoff_delay_formula ⟨1000000000, 10000000000, 2⟩ (by norm_num)
    (by norm_num)).2.2.1

/-- Helper: when the effective coefficient is the default 2 (either because
Coefficient is 0 and gets defaulted, or because it is literally 2), the delay
of attempt n ≥ 1 is min(MaxDelay, InitialDelay × 2^n) exactly (the product is
an integer, so truncation loses nothing). -/
lemma delay_coeff_two (e : ExponentialBackoff)
    (hc : e.coefficient = 0 ∨ e.coefficient = DefaultBackoffCoefficient)
    (n : ℕ) (hn : 1 ≤ n) :
    e.Delay (n : ℤ) = min e.maxDelay (e.initialDelay * 2 ^ n) := by
  have hne : ¬ ((n : ℤ)) = 0 := by omega
  have hd : ratTrunc ((e.initialDelay : ℚ) * DefaultBackoffCoefficient ^ ((n : ℕ) : ℤ))
      = e.initialDelay * 2 ^ n := by
    rw [show ((e.initialDelay : ℚ) * DefaultBackoffCoefficient ^ ((n : ℕ) : ℤ))
        = ((e.initialDelay * 2 ^ n : ℤ) : ℚ) by
      rw [zpow_natCast]
      push_cast [DefaultBackoffCoefficient]
      ring]
    exact ratTrunc_intCast _
  simp only [ExponentialBackoff.Delay]
  rcases hc with h0 | h2
  · rw [if_neg hne, if_pos h0]
    simp only [hd]
    rw [min_def]
    split_ifs <;> omega
  · rw [if_neg hne,
      if_neg (show ¬ e.coefficient = 0 by rw [h2]; norm_num [DefaultBackoffCoefficient])]
    rw [h2]
    simp only [hd]
    rw [min_def]
    split_ifs <;> omega

/-- C9: when the Coefficient field is exactly 0, Delay for every attempt n ≥ 1
is computed with the documented default coefficient 2.0: it equals
min(MaxDelay, InitialDelay × 2^n) and agrees with the same backoff whose
Coefficient is set to DefaultBackoffCoefficient. -/
theorem exponentialBackoff_default_coefficient (e : ExponentialBackoff)
    (h : e.coefficient = 0) (n : ℕ) (hn : 1 ≤ n) :
    e.Delay (n : ℤ) = min e.maxDelay (e.initialDelay * 2 ^ n)
    ∧ e.Delay (n : ℤ)
        = ({ e with coefficient := DefaultBackoffCoefficient }).Delay (n : ℤ) := by
  refine ⟨delay_coeff_two e (Or.inl h) n hn, ?_⟩
  rw [delay_coeff_two e (Or.inl h) n hn,
    delay_coeff_two { e with coefficient := DefaultBackoffCoefficient } (Or.inr rfl) n hn]

/-- Witness for C9: a backoff with Coefficient 0, attempt 2. -/
theorem exponentialBackoff_default_coefficient_witness :
    (ExponentialBackoff.mk 1 10 0).Delay ((2 : ℕ) : ℤ) = min 10 (1 * 2 ^ 2)
    ∧ (ExponentialBackoff.mk 1 10 0).Delay ((2 : ℕ) : ℤ)
        = ({ ExponentialBackoff.mk 1 10 0 with
              coefficient := DefaultBackoffCoefficient }).Delay ((2 : ℕ) : ℤ) :=
  exponentialBackoff_default_coefficient ⟨1, 10, 0⟩ rfl 2 (by norm_num)

/-- C7: with scale > 0 (so the defaulting is a no-op) and baseDelay < cap, each
call of a DecorrelatedJitter closure with stored state `sleep` and random draw
`r` returns the sample `base + r × (sleep × scale − base)` — Go's
`uniform(base, sleep*scale)`, with both the product and the scaled draw
truncated to whole nanoseconds — clamped to `cap`, and stores the unclamped
sample as the next state; the initial stored state is `base`, and in particular
the first call with base = cap = 1, scale = 2 and a zero draw returns 1. -/
theorem decorrelatedJitter_uniform_clamped (base cap : ℤ) (scale : ℚ)
    (hs : 0 < scale) (_hbc : base < cap) (r : ℚ) (sleep : ℤ) :
    (decorrelatedJitterStep base cap scale r sleep).1
        = min cap (base + ratTrunc (r * ((ratTrunc ((sleep : ℚ) * scale) - base : ℤ) : ℚ)))
    ∧ (decorrelatedJitterStep base cap scale r sleep).2
        = base + ratTrunc (r * ((ratTrunc ((sleep : ℚ) * scale) - base : ℤ) : ℚ))
    ∧ decorrelatedJitter 1 1 2 [0] = [1] := by
  have hscale : decorrelatedScale scale = scale := if_neg (not_le.mpr hs)
  refine ⟨?_, ?_, by norm_num [decorrelatedJitter, decorrelatedJitterRun,
    decorrelatedJitterStep, randomDurationBetween, decorrelatedScale,
    DefaultDecorrelatedScale, ratTrunc, Int.tdiv]⟩
  · simp only [decorrelatedJitterStep, randomDurationBetween, hscale]
    rw [min_def]
    split_ifs <;> omega
  · simp only [decorrelatedJitterStep, randomDurationBetween, hscale]

/-- Witness for C7 at base 1, cap 2, scale 2, draw 0, state 1: the call
returns the sample clamped to cap, stores the sample, and the spec's concrete
first call yields 1. -/
theorem decorrelatedJitter_uniform_clamped_witness :
    (decorrelatedJitterStep 1 2 2 0 1).1
        = min 2 (1 + ratTrunc (0 * ((ratTrunc (((1 : ℤ) : ℚ) * 2) - 1 : ℤ) : ℚ)))
    ∧ (decorrelatedJitterStep 1 2 2 0 1).2
        = 1 + ratTrunc (0 * ((ratTrunc (((1 : ℤ) : ℚ) * 2) - 1 : ℤ) : ℚ))
    ∧ decorrelatedJitter 1 1 2 [0] = [1] :=
  decorrelatedJitter_uniform_clamped 1 2 2 (by norm_num) (by norm_num) 0 1

/-- C10: the stored state of a DecorrelatedJitter closure is never clamped to
cap — it does not depend on cap at all — so it can grow beyond cap and later
returned delays are computed from the unclamped state.  Concretely with
base = 1, cap = 10, scale = 20 and draws 9/10 then 1/40: the first call
computes the sample 18, returns it clamped to the cap 10, and stores 18 > 10;
the second call computes its delay 9 from the stored 18, whereas a
hypothetical clamped state 10 would have produced 5. -/
theorem decorrelatedJitter_unclamped_state (base : ℤ) (scale : ℚ) (r : ℚ)
    (sleep cap1 cap2 : ℤ) :
    (decorrelatedJitterStep base cap1 scale r sleep).2
        = (decorrelatedJitterStep base cap2 scale r sleep).2
    ∧ decorrelatedJitter 1 10 20 [9/10, 1/40] = [10, 9]
    ∧ (decorrelatedJitterStep 1 10 20 (9/10) 1).2 = 18
    ∧ (decorrelatedJitterStep 1 10 20 (1/40) 10).1 = 5 := by
  refine ⟨rfl, ?_, ?_, ?_⟩ <;>
    norm_num [decorrelatedJitter, decorrelatedJitterRun, decorrelatedJitterStep,
      randomDurationBetween, decorrelatedScale, DefaultDecorrelatedScale, ratTrunc,
      Int.tdiv]

/-- Helper for the semaphore invariant: every reachable token count is at most
the capacity. -/
lemma semReachable_le (C o : ℕ) (h : SemReachable C o) : o ≤ C := by
  induction h with
  | init => exact Nat.zero_le C
  | step op hr heq ih =>
    cases op <;> simp only [semStep] at heq <;> split at heq <;>
      simp_all <;> omega

/-- C8: in every state reachable from a fresh semaphore of capacity C by
Acquire/TryAcquire/Release, the outstanding count o stays in [0, C] (o : ℕ, so
o ≤ C); moreover a successful Acquire or TryAcquire is enabled exactly when
o < C and moves to o + 1 (when o = C an Acquire blocks and a TryAcquire
returns false leaving o unchanged), and Release is enabled when 0 < o and
moves to o − 1. -/
theorem semaphore_outstanding_le_capacity (C o : ℕ) (h : SemReachable C o) :
    o ≤ C
    ∧ (o < C → semStep C o .acquire = some (o + 1)
        ∧ semStep C o .tryAcquireTrue = some (o + 1))
    ∧ (¬ o < C → semStep C o .acquire = none ∧ semStep C o .tryAcquireFalse = some o)
    ∧ (0 < o → semStep C o .release = some (o - 1)) := by
  refine ⟨semReachable_le C o h, fun hlt => ?_, fun hge => ?_, fun hpos => ?_⟩
  · exact ⟨by simp [semStep, hlt], by simp [semStep, hlt]⟩
  · exact ⟨by simp [semStep, hge], by simp [semStep, hge]⟩
  · simp [semStep, hpos]

/-- Witness for C8 in the state reached by one successful Acquire on a
capacity-1 semaphore. -/
theorem semaphore_outstanding_le_capacity_witness :
    (1 : ℕ) ≤ 1
    ∧ ((1 : ℕ) < 1 → semStep 1 1 .acquire = some 2
        ∧ semStep 1 1 .tryAcquireTrue = some 2)
    ∧ (¬ (1 : ℕ) < 1 → semStep 1 1 .acquire = none
        ∧ semStep 1 1 .tryAcquireFalse = some 1)
    ∧ ((0 : ℕ) < 1 → semStep 1 1 .release = some 0) :=
  semaphore_outstanding_le_capacity 1 1
    (SemReachable.step SemOp.acquire SemReachable.init (by decide))

/-- C3: whenever the operation's execution time exceeds the timeout, the
derived context is done strictly first, so WithTimeout returns the zero value
of T and the derived context's failure — DeadlineExceeded, or the inherited
parent cancellation when the parent ended first — regardless of the value and
error the operation eventually produces in the background and of how the
select's tie oracle would break simultaneous readiness. -/
theorem withTimeout_expires {E T : Type} [Inhabited T] (parent : Option (ℕ × Err E))
    (timeout opTime : ℕ) (h : timeout < opTime) (opRes : T × Option (Err E))
    (tie : Bool) :
    withTimeout parent timeout opTime opRes tie
        = (default, some (childCtxErr parent timeout))
    ∧ (childCtxErr parent timeout = Err.deadlineExceeded
        ∨ ∃ p, parent = some p ∧ childCtxErr parent timeout = p.2) := by
  constructor
  · simp only [withTimeout]
    rw [if_pos]
    left
    have hle : childDoneTime parent timeout ≤ timeout := by
      cases parent <;> simp [childDoneTime]
    omega
  · cases parent with
    | none => left; rfl
    | some p =>
      by_cases hp : p.1 < timeout
      · right
        exact ⟨p, rfl, by simp [childCtxErr, hp]⟩
      · left
        simp [childCtxErr, hp]

/-- Witness for C3: no parent deadline, timeout 1, operation taking 2; the
result is the zero value with the DeadlineExceeded failure even though the
operation would have succeeded with value 0. -/
theorem withTimeout_expires_witness :
    withTimeout (E := Unit) none 1 2 ((0 : ℕ), none) false
        = (0, some (childCtxErr none 1))
    ∧ (childCtxErr (E := Unit) none 1 = Err.deadlineExceeded
        ∨ ∃ p, (none : Option (ℕ × Err Unit)) = some p
            ∧ childCtxErr (E := Unit) none 1 = p.2) :=
  withTimeout_expires none 1 2 (by norm_num) ((0 : ℕ), none) false

end Got
